import Mathlib

/-!
Shallow embedding of `src/main.py` (`InMemoryDatabase`): an in-memory
key/field store with per-key advisory locking and FIFO waiter queues.

Python dicts are modelled as association lists (`List (String × β)`) with
first-match lookup; `setA` updates an existing binding in place or appends
a fresh one at the end, and `delA` removes the first binding, matching
Python dict assignment and `del`.  Operations that can raise an uncaught
`KeyError` in Python (the `self.modification_count[key] += 1` sites) return
`Option`, with `none` standing for the exception.
-/

set_option autoImplicit false

namespace InMemDB

universe u

/-- First-match lookup in an association list (Python `d[k]` / `k in d`). -/
def getA {β : Type u} : List (String × β) → String → Option β
  | [], _ => none
  | (k', v) :: rest, k => if k' = k then some v else getA rest k

/-- Python `d[k] = v`: replace the first binding of `k` in place, or append
a fresh binding at the end. -/
def setA {β : Type u} : List (String × β) → String → β → List (String × β)
  | [], k, v => [(k, v)]
  | (k', v') :: rest, k, v =>
      if k' = k then (k, v) :: rest else (k', v') :: setA rest k v

/-- Python `del d[k]` / `d.pop(k, None)`: remove the first binding of `k`. -/
def delA {β : Type u} : List (String × β) → String → List (String × β)
  | [], _ => []
  | (k', v') :: rest, k =>
      if k' = k then rest else (k', v') :: delA rest k

/-- The state of `InMemoryDatabase.__init__`: the four per-key maps. -/
structure InMemoryDatabase where
  records : List (String × List (String × Int))
  modification_count : List (String × Int)
  locks : List (String × String)
  lock_queues : List (String × List String)
deriving Repr, DecidableEq

namespace InMemoryDatabase

/-- A freshly constructed store: all four maps empty. -/
def init : InMemoryDatabase :=
  { records := [], modification_count := [], locks := [], lock_queues := [] }

/-- `inc`: does nothing (the source returns `None` without touching state). -/
def inc (db : InMemoryDatabase) (_key _field : String) (_value : Int) :
    InMemoryDatabase :=
  db

/-- `delete`: does nothing (the source returns `None` without touching state). -/
def delete (db : InMemoryDatabase) (_key _field : String) : InMemoryDatabase :=
  db

/-- `get(key, field)`: read a field, ignoring locks; `none` is Python `None`. -/
def get (db : InMemoryDatabase) (key field : String) : Option Int :=
  match getA db.records key with
  | some rec => getA rec field
  | none => none

/-- `set_or_inc_by_caller(key, field, value, caller_id)`.
Result `none` models an uncaught `KeyError` (possible only when the record
exists but its `modification_count` entry is missing); otherwise
`some (ret, db')` with `ret` the Python return value (`none` = `None`). -/
def set_or_inc_by_caller (db : InMemoryDatabase) (key field : String)
    (value : Int) (caller_id : String) :
    Option (Option Int × InMemoryDatabase) :=
  -- if key not in self.locks or self.locks[key] != caller_id: return None
  if getA db.locks key ≠ some caller_id then some (none, db)
  else
    -- if key not in self.records: self.records[key] = {}; self.modification_count[key] = 0
    let db1 :=
      match getA db.records key with
      | none =>
          { db with records := setA db.records key [],
                    modification_count := setA db.modification_count key 0 }
      | some _ => db
    match getA db1.records key with
    | none => none
    | some rec =>
      -- if field in self.records[key]: += value else: = value
      let newRec :=
        match getA rec field with
        | some v => setA rec field (v + value)
        | none => setA rec field value
      let db2 := { db1 with records := setA db1.records key newRec }
      -- self.modification_count[key] += 1  (KeyError if the entry is missing)
      match getA db2.modification_count key with
      | none => none
      | some m =>
        let db3 :=
          { db2 with modification_count := setA db2.modification_count key (m + 1) }
        -- return self.records[key][field]
        match getA db3.records key with
        | none => none
        | some rec' =>
          match getA rec' field with
          | none => none
          | some v => some (some v, db3)

/-- `delete_by_caller(key, field, caller_id)`.
Result `none` models an uncaught `KeyError` (possible only when the record
exists but its `modification_count` entry is missing); otherwise
`some (ret, db')` with `ret` the Python boolean return value. -/
def delete_by_caller (db : InMemoryDatabase) (key field : String)
    (caller_id : String) : Option (Bool × InMemoryDatabase) :=
  -- if key not in self.locks or self.locks[key] != caller_id: return False
  if getA db.locks key ≠ some caller_id then some (false, db)
  else
    -- if key in self.records and field in self.records[key]:
    match getA db.records key with
    | none => some (false, db)
    | some rec =>
      match getA rec field with
      | none => some (false, db)
      | some _ =>
        -- del self.records[key][field]
        let newRec := delA rec field
        let db1 := { db with records := setA db.records key newRec }
        -- self.modification_count[key] += 1  (KeyError if the entry is missing)
        match getA db1.modification_count key with
        | none => none
        | some m =>
          let db2 :=
            { db1 with
                modification_count := setA db1.modification_count key (m + 1) }
          -- if not self.records[key]: delete record, count, lock; pop queue
          if newRec = [] then
            some (true,
              { db2 with
                  records := delA db2.records key,
                  modification_count := delA db2.modification_count key,
                  locks := delA db2.locks key,
                  lock_queues := delA db2.lock_queues key })
          else
            some (true, db2)

/-- `lock(key, caller_id)`: returns `"invalid_request"`, `"acquired"`,
`"wait"`, or `none` (Python `None`, the silent re-lock no-op), paired with
the updated state. -/
def lock (db : InMemoryDatabase) (key caller_id : String) :
    Option String × InMemoryDatabase :=
  -- if key not in self.records: return "invalid_request"
  match getA db.records key with
  | none => (some "invalid_request", db)
  | some _ =>
    match getA db.locks key with
    | none =>
        -- self.locks[key] = caller_id; return "acquired"
        (some "acquired", { db with locks := setA db.locks key caller_id })
    | some owner =>
      -- if self.locks[key] == caller_id: return None
      if owner = caller_id then (none, db)
      else
        -- if key not in self.lock_queues: self.lock_queues[key] = []
        let q0 :=
          match getA db.lock_queues key with
          | none => []
          | some q => q
        let db1 :=
          match getA db.lock_queues key with
          | none => { db with lock_queues := setA db.lock_queues key [] }
          | some _ => db
        -- if caller_id not in self.lock_queues[key]: append
        if caller_id ∈ q0 then (some "wait", db1)
        else
          (some "wait",
            { db1 with lock_queues := setA db1.lock_queues key (q0 ++ [caller_id]) })

/-- `unlock(key)`: returns `none` (Python `None`) when the key is not
locked, otherwise `"released"`; hands the lock to the head of the waiter
queue when that queue is non-empty. -/
def unlock (db : InMemoryDatabase) (key : String) :
    Option String × InMemoryDatabase :=
  -- if key not in self.locks: return None
  match getA db.locks key with
  | none => (none, db)
  | some _ =>
    -- del self.locks[key]
    let db1 := { db with locks := delA db.locks key }
    -- if key in self.lock_queues and self.lock_queues[key]:
    match getA db1.lock_queues key with
    | some (next_caller :: rest) =>
        -- next_caller = queue.pop(0); self.locks[key] = next_caller
        (some "released",
          { db1 with
              lock_queues := setA db1.lock_queues key rest,
              locks := setA db1.locks key next_caller })
    | some [] => (some "released", db1)
    | none => (some "released", db1)

end InMemoryDatabase

/-! ### Association-list lemmas -/

/-- A Python dict never binds the same key twice. -/
abbrev keysNodup {β : Type u} (m : List (String × β)) : Prop :=
  (m.map Prod.fst).Nodup

@[simp] theorem getA_nil {β : Type u} (k : String) :
    getA ([] : List (String × β)) k = none := rfl

theorem getA_setA_self {β : Type u} (m : List (String × β)) (k : String) (v : β) :
    getA (setA m k v) k = some v := by
  induction m with
  | nil => simp [setA, getA]
  | cons hd tl ih =>
    obtain ⟨k', v'⟩ := hd
    by_cases h : k' = k <;> simp [setA, getA, h, ih]

theorem getA_setA_ne {β : Type u} (m : List (String × β)) (k k' : String) (v : β)
    (h : k' ≠ k) : getA (setA m k v) k' = getA m k' := by
  have hsym : ¬k = k' := fun hh => h hh.symm
  induction m with
  | nil => simp [setA, getA, hsym]
  | cons hd tl ih =>
    obtain ⟨a, b⟩ := hd
    by_cases ha : a = k
    · subst ha
      simp [setA, getA, hsym, h]
    · by_cases ha' : a = k' <;> simp [setA, getA, ha, ha', hsym, h, ih]

theorem getA_delA_ne {β : Type u} (m : List (String × β)) (k k' : String)
    (h : k' ≠ k) : getA (delA m k) k' = getA m k' := by
  have hsym : ¬k = k' := fun hh => h hh.symm
  induction m with
  | nil => simp [delA]
  | cons hd tl ih =>
    obtain ⟨a, b⟩ := hd
    by_cases ha : a = k
    · subst ha
      simp [delA, getA, hsym, h]
    · by_cases ha' : a = k' <;> simp [delA, getA, ha, ha', hsym, h, ih]

theorem getA_eq_none_of_not_mem {β : Type u} (m : List (String × β)) (k : String)
    (h : k ∉ m.map Prod.fst) : getA m k = none := by
  induction m with
  | nil => rfl
  | cons hd tl ih =>
    obtain ⟨a, b⟩ := hd
    simp only [List.map_cons, List.mem_cons] at h
    push_neg at h
    have h1 : ¬a = k := fun hh => h.1 hh.symm
    simp [getA, h1, ih h.2]

theorem getA_delA_self {β : Type u} (m : List (String × β)) (k : String)
    (h : keysNodup m) : getA (delA m k) k = none := by
  induction m with
  | nil => rfl
  | cons hd tl ih =>
    obtain ⟨a, b⟩ := hd
    simp only [keysNodup, List.map_cons, List.nodup_cons] at h
    by_cases ha : a = k
    · subst ha
      simpa [delA] using getA_eq_none_of_not_mem tl a h.1
    · simp [delA, getA, ha, ih h.2]

theorem mem_keys_setA {β : Type u} (m : List (String × β)) (k : String) (v : β)
    (a : String) :
    a ∈ (setA m k v).map Prod.fst ↔ a ∈ m.map Prod.fst ∨ a = k := by
  induction m with
  | nil => simp [setA]
  | cons hd tl ih =>
    obtain ⟨k', v'⟩ := hd
    by_cases h : k' = k
    · subst h
      simp [setA]
      tauto
    · simp [setA, h, ih]
      tauto

theorem keysNodup_setA {β : Type u} (m : List (String × β)) (k : String) (v : β)
    (h : keysNodup m) : keysNodup (setA m k v) := by
  induction m with
  | nil => simp [keysNodup, setA]
  | cons hd tl ih =>
    obtain ⟨k', v'⟩ := hd
    simp only [keysNodup, List.map_cons, List.nodup_cons] at h
    by_cases hk : k' = k
    · subst hk
      simpa [keysNodup, setA] using h
    · have := ih h.2
      simp only [keysNodup, setA, hk, if_false, List.map_cons, List.nodup_cons]
      refine ⟨?_, this⟩
      rw [mem_keys_setA]
      rintro (hmem | rfl)
      · exact h.1 hmem
      · exact hk rfl

theorem keys_delA_sublist {β : Type u} (m : List (String × β)) (k : String) :
    ((delA m k).map Prod.fst).Sublist (m.map Prod.fst) := by
  induction m with
  | nil => simp [delA]
  | cons hd tl ih =>
    obtain ⟨k', v'⟩ := hd
    by_cases hk : k' = k
    · simp only [delA, hk, if_true, List.map_cons]
      exact List.sublist_cons_self k (tl.map Prod.fst)
    · simpa [delA, hk] using ih.cons₂ k'

theorem keysNodup_delA {β : Type u} (m : List (String × β)) (k : String)
    (h : keysNodup m) : keysNodup (delA m k) := by
  exact h.sublist (keys_delA_sublist m k)

/-! ### Operation-level characterization lemmas -/

namespace InMemoryDatabase

theorem set_or_inc_not_owner (db : InMemoryDatabase) (k f : String) (v : Int)
    (c : String) (h : getA db.locks k ≠ some c) :
    db.set_or_inc_by_caller k f v c = some (none, db) := by
  simp [set_or_inc_by_caller, h]

theorem set_or_inc_new_record (db : InMemoryDatabase) (k f : String) (v : Int)
    (c : String) (hl : getA db.locks k = some c)
    (hrec : getA db.records k = none) :
    db.set_or_inc_by_caller k f v c =
      some (some v,
        { db with
            records := setA (setA db.records k []) k [(f, v)],
            modification_count := setA (setA db.modification_count k 0) k 1 }) := by
  simp [set_or_inc_by_caller, hl, hrec, getA_setA_self, getA, setA]

theorem set_or_inc_existing_record (db : InMemoryDatabase) (k f : String)
    (v : Int) (c : String) (rec : List (String × Int)) (m : Int)
    (hl : getA db.locks k = some c)
    (hrec : getA db.records k = some rec)
    (hcnt : getA db.modification_count k = some m) :
    db.set_or_inc_by_caller k f v c =
      some (some ((getA rec f).getD 0 + v),
        { db with
            records := setA db.records k (setA rec f ((getA rec f).getD 0 + v)),
            modification_count := setA db.modification_count k (m + 1) }) := by
  cases hf : getA rec f with
  | none =>
    simp [set_or_inc_by_caller, hl, hrec, hcnt, hf, getA_setA_self]
  | some ov =>
    simp [set_or_inc_by_caller, hl, hrec, hcnt, hf, getA_setA_self,
      Int.add_comm ov v]

theorem delete_not_owner (db : InMemoryDatabase) (k f : String) (c : String)
    (h : getA db.locks k ≠ some c) :
    db.delete_by_caller k f c = some (false, db) := by
  simp [delete_by_caller, h]

theorem delete_no_record (db : InMemoryDatabase) (k f : String) (c : String)
    (hl : getA db.locks k = some c) (hrec : getA db.records k = none) :
    db.delete_by_caller k f c = some (false, db) := by
  simp [delete_by_caller, hl, hrec]

theorem delete_no_field (db : InMemoryDatabase) (k f : String) (c : String)
    (rec : List (String × Int)) (hl : getA db.locks k = some c)
    (hrec : getA db.records k = some rec) (hf : getA rec f = none) :
    db.delete_by_caller k f c = some (false, db) := by
  simp [delete_by_caller, hl, hrec, hf]

theorem delete_hit_nonempty (db : InMemoryDatabase) (k f : String) (c : String)
    (rec : List (String × Int)) (fv m : Int)
    (hl : getA db.locks k = some c)
    (hrec : getA db.records k = some rec) (hf : getA rec f = some fv)
    (hcnt : getA db.modification_count k = some m)
    (hne : delA rec f ≠ []) :
    db.delete_by_caller k f c =
      some (true,
        { db with
            records := setA db.records k (delA rec f),
            modification_count := setA db.modification_count k (m + 1) }) := by
  simp [delete_by_caller, hl, hrec, hf, hcnt, hne, getA_setA_self]

theorem delete_hit_empty (db : InMemoryDatabase) (k f : String) (c : String)
    (rec : List (String × Int)) (fv m : Int)
    (hl : getA db.locks k = some c)
    (hrec : getA db.records k = some rec) (hf : getA rec f = some fv)
    (hcnt : getA db.modification_count k = some m)
    (he : delA rec f = []) :
    db.delete_by_caller k f c =
      some (true,
        { records := delA (setA db.records k (delA rec f)) k,
          modification_count := delA (setA db.modification_count k (m + 1)) k,
          locks := delA db.locks k,
          lock_queues := delA db.lock_queues k }) := by
  simp [delete_by_caller, hl, hrec, hf, hcnt, he, getA_setA_self]

theorem lock_invalid_request (db : InMemoryDatabase) (k c : String)
    (hrec : getA db.records k = none) :
    db.lock k c = (some "invalid_request", db) := by
  simp [lock, hrec]

theorem lock_acquire (db : InMemoryDatabase) (k c : String)
    (hrec : (getA db.records k).isSome) (hun : getA db.locks k = none) :
    db.lock k c = (some "acquired", { db with locks := setA db.locks k c }) := by
  obtain ⟨rec, hrec⟩ := Option.isSome_iff_exists.mp hrec
  simp [lock, hrec, hun]

theorem lock_relock (db : InMemoryDatabase) (k c : String)
    (hrec : (getA db.records k).isSome) (hown : getA db.locks k = some c) :
    db.lock k c = (none, db) := by
  obtain ⟨rec, hrec⟩ := Option.isSome_iff_exists.mp hrec
  simp [lock, hrec, hown]

theorem lock_wait_no_queue (db : InMemoryDatabase) (k c o : String)
    (hrec : (getA db.records k).isSome) (hown : getA db.locks k = some o)
    (hne : o ≠ c) (hq : getA db.lock_queues k = none) :
    db.lock k c =
      (some "wait",
        { db with lock_queues := setA (setA db.lock_queues k []) k [c] }) := by
  obtain ⟨rec, hrec⟩ := Option.isSome_iff_exists.mp hrec
  simp [lock, hrec, hown, hne, hq]

theorem lock_wait_queued (db : InMemoryDatabase) (k c o : String)
    (q : List String) (hrec : (getA db.records k).isSome)
    (hown : getA db.locks k = some o) (hne : o ≠ c)
    (hq : getA db.lock_queues k = some q) (hc : c ∈ q) :
    db.lock k c = (some "wait", db) := by
  obtain ⟨rec, hrec⟩ := Option.isSome_iff_exists.mp hrec
  simp [lock, hrec, hown, hne, hq, hc]

theorem lock_wait_append (db : InMemoryDatabase) (k c o : String)
    (q : List String) (hrec : (getA db.records k).isSome)
    (hown : getA db.locks k = some o) (hne : o ≠ c)
    (hq : getA db.lock_queues k = some q) (hc : c ∉ q) :
    db.lock k c =
      (some "wait",
        { db with lock_queues := setA db.lock_queues k (q ++ [c]) }) := by
  obtain ⟨rec, hrec⟩ := Option.isSome_iff_exists.mp hrec
  simp [lock, hrec, hown, hne, hq, hc]

theorem unlock_not_locked (db : InMemoryDatabase) (k : String)
    (h : getA db.locks k = none) : db.unlock k = (none, db) := by
  simp [unlock, h]

theorem unlock_handoff (db : InMemoryDatabase) (k o w : String)
    (rest : List String) (hown : getA db.locks k = some o)
    (hq : getA db.lock_queues k = some (w :: rest)) :
    db.unlock k =
      (some "released",
        { db with
            locks := setA (delA db.locks k) k w,
            lock_queues := setA db.lock_queues k rest }) := by
  simp [unlock, hown, hq]

theorem unlock_no_waiters (db : InMemoryDatabase) (k o : String)
    (hown : getA db.locks k = some o)
    (hq : getA db.lock_queues k = none ∨ getA db.lock_queues k = some []) :
    db.unlock k = (some "released", { db with locks := delA db.locks k }) := by
  rcases hq with hq | hq <;> simp [unlock, hown, hq]

end InMemoryDatabase

/-- The operations a caller can issue against the store (state-relevant
view: `get` and `top_n_keys` are pure reads). -/
inductive Op where
  | inc (key field : String) (value : Int)
  | delete (key field : String)
  | get (key field : String)
  | setOrInc (key field : String) (value : Int) (callerId : String)
  | delByCaller (key field : String) (callerId : String)
  | lock (key callerId : String)
  | unlock (key : String)
  | topN (n : Nat)
deriving Repr, DecidableEq

/-- The state transition of one operation; `none` models an uncaught
Python exception. -/
def applyOp (db : InMemoryDatabase) : Op → Option InMemoryDatabase
  | .inc k f v => some (db.inc k f v)
  | .delete k f => some (db.delete k f)
  | .get _ _ => some db
  | .setOrInc k f v c => (db.set_or_inc_by_caller k f v c).map Prod.snd
  | .delByCaller k f c => (db.delete_by_caller k f c).map Prod.snd
  | .lock k c => some (db.lock k c).2
  | .unlock k => some (db.unlock k).2
  | .topN _ => some db

/-- Run a sequence of operations from a starting state. -/
def run (db : InMemoryDatabase) : List Op → Option InMemoryDatabase
  | [] => some db
  | op :: ops => (applyOp db op).bind (fun db' => run db' ops)

/-! ### Waiter-queue well-formedness -/

/-- The waiter-queue map binds each key at most once, and every queue is
duplicate-free. -/
def queuesWF (db : InMemoryDatabase) : Prop :=
  keysNodup db.lock_queues ∧
  ∀ k q, getA db.lock_queues k = some q → q.Nodup

namespace InMemoryDatabase

theorem set_or_inc_keyerror (db : InMemoryDatabase) (k f : String) (v : Int)
    (c : String) (rec : List (String × Int)) (hl : getA db.locks k = some c)
    (hrec : getA db.records k = some rec)
    (hcnt : getA db.modification_count k = none) :
    db.set_or_inc_by_caller k f v c = none := by
  cases hf : getA rec f with
  | none => simp [set_or_inc_by_caller, hl, hrec, hcnt, hf, getA_setA_self]
  | some ov => simp [set_or_inc_by_caller, hl, hrec, hcnt, hf, getA_setA_self]

theorem delete_keyerror (db : InMemoryDatabase) (k f : String) (c : String)
    (rec : List (String × Int)) (fv : Int) (hl : getA db.locks k = some c)
    (hrec : getA db.records k = some rec) (hf : getA rec f = some fv)
    (hcnt : getA db.modification_count k = none) :
    db.delete_by_caller k f c = none := by
  simp [delete_by_caller, hl, hrec, hf, hcnt]

/-- A successful set_or_inc_by_caller call never touches the lock and
waiter-queue maps. -/
theorem set_or_inc_snd_locks (db : InMemoryDatabase) (k f : String) (v : Int)
    (c : String) (r : Option Int) (db' : InMemoryDatabase)
    (h : db.set_or_inc_by_caller k f v c = some (r, db')) :
    db'.lock_queues = db.lock_queues ∧ db'.locks = db.locks := by
  by_cases hl : getA db.locks k = some c
  · rcases hrec : getA db.records k with _ | rec
    · rw [db.set_or_inc_new_record k f v c hl hrec] at h
      obtain ⟨-, rfl⟩ := Prod.mk.inj (Option.some.inj h)
      exact ⟨rfl, rfl⟩
    · rcases hcnt : getA db.modification_count k with _ | m
      · rw [db.set_or_inc_keyerror k f v c rec hl hrec hcnt] at h
        exact absurd h (by simp)
      · rw [db.set_or_inc_existing_record k f v c rec m hl hrec hcnt] at h
        obtain ⟨-, rfl⟩ := Prod.mk.inj (Option.some.inj h)
        exact ⟨rfl, rfl⟩
  · rw [db.set_or_inc_not_owner k f v c hl] at h
    obtain ⟨-, rfl⟩ := Prod.mk.inj (Option.some.inj h)
    exact ⟨rfl, rfl⟩

/-- A successful delete_by_caller call leaves the waiter-queue map alone
except when it destroys the record, in which case it removes exactly the
key's entry. -/
theorem delete_snd_lock_queues (db : InMemoryDatabase) (k f : String)
    (c : String) (r : Bool) (db' : InMemoryDatabase)
    (h : db.delete_by_caller k f c = some (r, db')) :
    db'.lock_queues = db.lock_queues ∨
    db'.lock_queues = delA db.lock_queues k := by
  by_cases hl : getA db.locks k = some c
  · rcases hrec : getA db.records k with _ | rec
    · rw [db.delete_no_record k f c hl hrec] at h
      obtain ⟨-, rfl⟩ := Prod.mk.inj (Option.some.inj h)
      exact Or.inl rfl
    · rcases hf : getA rec f with _ | fv
      · rw [db.delete_no_field k f c rec hl hrec hf] at h
        obtain ⟨-, rfl⟩ := Prod.mk.inj (Option.some.inj h)
        exact Or.inl rfl
      · rcases hcnt : getA db.modification_count k with _ | m
        · rw [db.delete_keyerror k f c rec fv hl hrec hf hcnt] at h
          exact absurd h (by simp)
        · by_cases he : delA rec f = []
          · rw [db.delete_hit_empty k f c rec fv m hl hrec hf hcnt he] at h
            obtain ⟨-, rfl⟩ := Prod.mk.inj (Option.some.inj h)
            exact Or.inr rfl
          · rw [db.delete_hit_nonempty k f c rec fv m hl hrec hf hcnt he] at h
            obtain ⟨-, rfl⟩ := Prod.mk.inj (Option.some.inj h)
            exact Or.inl rfl
  · rw [db.delete_not_owner k f c hl] at h
    obtain ⟨-, rfl⟩ := Prod.mk.inj (Option.some.inj h)
    exact Or.inl rfl

end InMemoryDatabase

theorem queuesWF_of_eq (db db' : InMemoryDatabase)
    (he : db'.lock_queues = db.lock_queues) (h : queuesWF db) : queuesWF db' :=
  ⟨by rw [keysNodup, he]; exact h.1,
   fun k q hq => h.2 k q (by rwa [he] at hq)⟩

theorem queuesWF_of_delA (db db' : InMemoryDatabase) (k : String)
    (he : db'.lock_queues = delA db.lock_queues k) (h : queuesWF db) :
    queuesWF db' := by
  obtain ⟨hkeys, hvals⟩ := h
  refine ⟨by rw [keysNodup, he]; exact keysNodup_delA _ _ hkeys, ?_⟩
  intro k' q' hq'
  rw [he] at hq'
  by_cases hk' : k' = k
  · subst hk'
    rw [getA_delA_self _ _ hkeys] at hq'
    exact absurd hq' (by simp)
  · rw [getA_delA_ne _ _ _ hk'] at hq'
    exact hvals k' q' hq'

theorem queuesWF_lock (db : InMemoryDatabase) (k c : String)
    (h : queuesWF db) : queuesWF (db.lock k c).2 := by
  obtain ⟨hkeys, hvals⟩ := h
  rcases hrec : getA db.records k with _ | rec
  · rw [db.lock_invalid_request k c hrec]
    exact ⟨hkeys, hvals⟩
  · have hrecs : (getA db.records k).isSome := by rw [hrec]; rfl
    rcases hlk : getA db.locks k with _ | o
    · rw [db.lock_acquire k c hrecs hlk]
      exact ⟨hkeys, hvals⟩
    · by_cases hoc : o = c
      · subst hoc
        rw [db.lock_relock k o hrecs hlk]
        exact ⟨hkeys, hvals⟩
      · rcases hq : getA db.lock_queues k with _ | q
        · rw [db.lock_wait_no_queue k c o hrecs hlk hoc hq]
          refine ⟨keysNodup_setA _ _ _ (keysNodup_setA _ _ _ hkeys), ?_⟩
          intro k' q' hq'
          by_cases hk' : k' = k
          · subst hk'
            rw [getA_setA_self] at hq'
            obtain rfl := Option.some.inj hq'
            simp
          · rw [getA_setA_ne _ _ _ _ hk', getA_setA_ne _ _ _ _ hk'] at hq'
            exact hvals k' q' hq'
        · by_cases hc : c ∈ q
          · rw [db.lock_wait_queued k c o q hrecs hlk hoc hq hc]
            exact ⟨hkeys, hvals⟩
          · rw [db.lock_wait_append k c o q hrecs hlk hoc hq hc]
            refine ⟨keysNodup_setA _ _ _ hkeys, ?_⟩
            intro k' q' hq'
            by_cases hk' : k' = k
            · subst hk'
              rw [getA_setA_self] at hq'
              obtain rfl := Option.some.inj hq'
              have hqnd : q.Nodup := hvals _ _ hq
              rw [List.nodup_append]
              refine ⟨hqnd, by simp, ?_⟩
              intro a ha hmem
              rw [List.mem_singleton] at hmem
              subst hmem
              exact hc ha
            · rw [getA_setA_ne _ _ _ _ hk'] at hq'
              exact hvals k' q' hq'

theorem queuesWF_unlock (db : InMemoryDatabase) (k : String)
    (h : queuesWF db) : queuesWF (db.unlock k).2 := by
  obtain ⟨hkeys, hvals⟩ := h
  rcases hlk : getA db.locks k with _ | o
  · rw [db.unlock_not_locked k hlk]
    exact ⟨hkeys, hvals⟩
  · rcases hq : getA db.lock_queues k with _ | q
    · rw [db.unlock_no_waiters k o hlk (Or.inl hq)]
      exact ⟨hkeys, hvals⟩
    · cases q with
      | nil =>
        rw [db.unlock_no_waiters k o hlk (Or.inr hq)]
        exact ⟨hkeys, hvals⟩
      | cons w rest =>
        rw [db.unlock_handoff k o w rest hlk hq]
        refine ⟨keysNodup_setA _ _ _ hkeys, ?_⟩
        intro k' q' hq'
        by_cases hk' : k' = k
        · subst hk'
          rw [getA_setA_self] at hq'
          obtain rfl := Option.some.inj hq'
          exact (hvals _ _ hq).of_cons
        · rw [getA_setA_ne _ _ _ _ hk'] at hq'
          exact hvals k' q' hq'

/-- Every operation preserves waiter-queue well-formedness. -/
theorem queuesWF_applyOp (db : InMemoryDatabase) (op : Op)
    (db' : InMemoryDatabase) (h : queuesWF db)
    (happ : applyOp db op = some db') : queuesWF db' := by
  cases op with
  | inc k f v => obtain rfl := Option.some.inj happ; exact h
  | delete k f => obtain rfl := Option.some.inj happ; exact h
  | get k f => obtain rfl := Option.some.inj happ; exact h
  | topN n => obtain rfl := Option.some.inj happ; exact h
  | lock k c =>
    obtain rfl := Option.some.inj happ
    exact queuesWF_lock db k c h
  | unlock k =>
    obtain rfl := Option.some.inj happ
    exact queuesWF_unlock db k h
  | setOrInc k f v c =>
    rcases hres : db.set_or_inc_by_caller k f v c with _ | pair
    · simp only [applyOp, hres, Option.map_none'] at happ
      exact absurd happ (by simp)
    · obtain ⟨r, db2⟩ := pair
      simp only [applyOp, hres, Option.map_some', Option.some.injEq] at happ
      subst happ
      exact queuesWF_of_eq db _ (db.set_or_inc_snd_locks k f v c r _ hres).1 h
  | delByCaller k f c =>
    rcases hres : db.delete_by_caller k f c with _ | pair
    · simp only [applyOp, hres, Option.map_none'] at happ
      exact absurd happ (by simp)
    · obtain ⟨r, db2⟩ := pair
      simp only [applyOp, hres, Option.map_some', Option.some.injEq] at happ
      subst happ
      rcases db.delete_snd_lock_queues k f c r _ hres with he | he
      · exact queuesWF_of_eq db _ he h
      · exact queuesWF_of_delA db _ k he h

/-! ### Sample states for witnesses -/

/-- A store holding one record, locked by caller A, with no waiters. -/
def sampleLocked : InMemoryDatabase :=
  { records := [("k1", [("f", 5)])], modification_count := [("k1", 1)],
    locks := [("k1", "A")], lock_queues := [] }

/-- A store holding one record, locked by caller A, with B waiting. -/
def sampleQueued : InMemoryDatabase :=
  { records := [("k1", [("f", 5)])], modification_count := [("k1", 1)],
    locks := [("k1", "A")], lock_queues := [("k1", ["B"])] }

/-- A store with a lock on "k1" but no record for it (lock-state only). -/
def sampleLockedNoRec : InMemoryDatabase :=
  { records := [], modification_count := [],
    locks := [("k1", "A")], lock_queues := [] }

/-- A store whose record for "k1" has two fields, locked by caller A. -/
def sampleTwoFields : InMemoryDatabase :=
  { records := [("k1", [("f", 5), ("g", 7)])], modification_count := [("k1", 2)],
    locks := [("k1", "A")], lock_queues := [] }

/-- One step from the initial empty store is the initial empty store again:
every operation fails its guard (or is a pure read) on empty maps. -/
theorem applyOp_init (op : Op) :
    applyOp InMemoryDatabase.init op = some InMemoryDatabase.init := by
  cases op <;> rfl

/-- No sequence of operations leaves the initial empty store. -/
theorem run_init (ops : List Op) :
    run InMemoryDatabase.init ops = some InMemoryDatabase.init := by
  induction ops with
  | nil => rfl
  | cons op ops ih => simp [run, applyOp_init, ih]

/-! ### Claim theorems -/

/-- C1, counterexample: on a freshly constructed store, the very first step
of the spec's literal scenario fails: lock("k1","A") returns
"invalid_request", not "acquired", because the Record for "k1" does not
exist yet. -/
theorem claim_C1_counterexample :
    (InMemoryDatabase.init.lock "k1" "A").1 = some "invalid_request" ∧
    (InMemoryDatabase.init.lock "k1" "A").1 ≠ some "acquired" := by
  decide

/-- C1, amended: from a freshly constructed empty store, lock("k1","A")
returns "invalid_request" and leaves the store unchanged; the subsequent
setOrIncrementByCaller("k1","f",5,"A") returns absent with no effect, and
get("k1","f") returns absent.  No Record is ever created because the
record-creation branch requires a lock that cannot be acquired on a
not-yet-existing key. -/
theorem claim_C1_amended :
    InMemoryDatabase.init.lock "k1" "A" =
      (some "invalid_request", InMemoryDatabase.init) ∧
    InMemoryDatabase.init.set_or_inc_by_caller "k1" "f" 5 "A" =
      some (none, InMemoryDatabase.init) ∧
    InMemoryDatabase.init.get "k1" "f" = none := by
  decide

/-- C2: from the initial empty store every reachable state is the initial
state itself (all four maps stay empty); at that state, lock always
returns "invalid_request" without change, and set_or_inc_by_caller always
returns None without change, so no Record is ever created, no lock is ever
acquired, and the record-creation branch of set_or_inc_by_caller is
unreachable. -/
theorem claim_C2 :
    (∀ ops : List Op, run InMemoryDatabase.init ops = some InMemoryDatabase.init) ∧
    (∀ k c, InMemoryDatabase.init.lock k c =
      (some "invalid_request", InMemoryDatabase.init)) ∧
    (∀ k f v c, InMemoryDatabase.init.set_or_inc_by_caller k f v c =
      some (none, InMemoryDatabase.init)) := by
  refine ⟨run_init, ?_, ?_⟩
  · intro k c; rfl
  · intro k f v c; rfl

/-- C3: whenever the caller does not hold the key's lock (the lock entry is
absent or names a different caller), set_or_inc_by_caller returns None and
delete_by_caller returns False, and both leave the entire store state
unchanged. -/
theorem claim_C3 (db : InMemoryDatabase) (k f : String) (d : Int) (c : String)
    (h : getA db.locks k ≠ some c) :
    db.set_or_inc_by_caller k f d c = some (none, db) ∧
    db.delete_by_caller k f c = some (false, db) :=
  ⟨db.set_or_inc_not_owner k f d c h, db.delete_not_owner k f c h⟩

/-- C3 witness: caller B, who does not hold the lock A owns on "k1" (and
holds nothing on the lock-free key "k2"), fails both gated mutations with
no state change. -/
theorem claim_C3_witness :
    (sampleLocked.set_or_inc_by_caller "k1" "f" 7 "B" = some (none, sampleLocked) ∧
      sampleLocked.delete_by_caller "k1" "f" "B" = some (false, sampleLocked)) ∧
    (sampleLocked.set_or_inc_by_caller "k2" "f" 7 "B" = some (none, sampleLocked) ∧
      sampleLocked.delete_by_caller "k2" "f" "B" = some (false, sampleLocked)) :=
  ⟨claim_C3 sampleLocked "k1" "f" 7 "B" (by decide),
   claim_C3 sampleLocked "k2" "f" 7 "B" (by decide)⟩

/-- C7: lock on a key whose Record does not exist returns "invalid_request"
and leaves the entire store state unchanged (no Record, LockOwner or
WaiterQueue entry is created). -/
theorem claim_C7 (db : InMemoryDatabase) (k c : String)
    (hrec : getA db.records k = none) :
    db.lock k c = (some "invalid_request", db) :=
  db.lock_invalid_request k c hrec

/-- C7 witness: locking the non-existent key "k2" of a non-empty store is
rejected with no state change. -/
theorem claim_C7_witness :
    sampleLocked.lock "k2" "C" = (some "invalid_request", sampleLocked) :=
  claim_C7 sampleLocked "k2" "C" (by decide)

/-- C9: a repeated lock by the current holder of an existing key's lock
returns the no-op result None (which is distinct from "acquired") and
leaves the entire store state unchanged. -/
theorem claim_C9 (db : InMemoryDatabase) (k c : String)
    (hrec : (getA db.records k).isSome) (hown : getA db.locks k = some c) :
    db.lock k c = (none, db) ∧ (none : Option String) ≠ some "acquired" :=
  ⟨db.lock_relock k c hrec hown, by decide⟩

/-- C9 witness: caller A re-locking "k1", which A already holds, is a
silent no-op. -/
theorem claim_C9_witness :
    sampleQueued.lock "k1" "A" = (none, sampleQueued) ∧
    (none : Option String) ≠ some "acquired" :=
  claim_C9 sampleQueued "k1" "A" (by decide) (by decide)

/-- C5: unlock on a key with no LockOwner is a no-op returning None, even
when the key's Record exists; otherwise it returns "released" and removes
the owner: with a non-empty waiter queue the queue head becomes the new
owner and exactly the head is popped (remaining waiters keep their order);
with an empty or absent queue the key becomes fully unlocked.  Records and
modification counts are never touched. -/
theorem claim_C5 (db : InMemoryDatabase) (k : String)
    (hnd : keysNodup db.locks) :
    (getA db.locks k = none → db.unlock k = (none, db)) ∧
    (∀ o, getA db.locks k = some o →
      (db.unlock k).1 = some "released" ∧
      (db.unlock k).2.records = db.records ∧
      (db.unlock k).2.modification_count = db.modification_count ∧
      (∀ w rest, getA db.lock_queues k = some (w :: rest) →
        getA (db.unlock k).2.locks k = some w ∧
        getA (db.unlock k).2.lock_queues k = some rest ∧
        (∀ k', k' ≠ k →
          getA (db.unlock k).2.lock_queues k' = getA db.lock_queues k' ∧
          getA (db.unlock k).2.locks k' = getA (delA db.locks k) k')) ∧
      ((getA db.lock_queues k = none ∨ getA db.lock_queues k = some []) →
        getA (db.unlock k).2.locks k = none)) := by
  constructor
  · exact db.unlock_not_locked k
  · intro o hown
    rcases hq : getA db.lock_queues k with _ | q
    · rw [db.unlock_no_waiters k o hown (Or.inl hq)]
      refine ⟨rfl, rfl, rfl, ?_, ?_⟩
      · intro w rest hq'
        exact absurd hq' (by simp)
      · intro _
        exact getA_delA_self db.locks k hnd
    · cases q with
      | nil =>
        rw [db.unlock_no_waiters k o hown (Or.inr hq)]
        refine ⟨rfl, rfl, rfl, ?_, ?_⟩
        · intro w rest hq'
          exact absurd hq' (by simp)
        · intro _
          exact getA_delA_self db.locks k hnd
      | cons w rest =>
        rw [db.unlock_handoff k o w rest hown hq]
        refine ⟨rfl, rfl, rfl, ?_, ?_⟩
        · intro w' rest' hq'
          simp only [Option.some.injEq, List.cons.injEq] at hq'
          obtain ⟨rfl, rfl⟩ := hq'
          refine ⟨getA_setA_self _ _ _, getA_setA_self _ _ _, ?_⟩
          intro k' hk'
          exact ⟨getA_setA_ne _ _ _ _ hk', getA_setA_ne _ _ _ _ hk'⟩
        · intro hq'
          rcases hq' with hq' | hq' <;> exact absurd hq' (by simp)

/-- C5 witness: unlocking the unlocked key "k2" of a non-empty store is a
no-op; unlocking "k1" of a store where B waits on A hands the lock to B
and empties the queue; unlocking "k1" with no waiters fully unlocks it. -/
theorem claim_C5_witness :
    sampleQueued.unlock "k2" = (none, sampleQueued) ∧
    (sampleQueued.unlock "k1").1 = some "released" ∧
    getA (sampleQueued.unlock "k1").2.locks "k1" = some "B" ∧
    getA (sampleQueued.unlock "k1").2.lock_queues "k1" = some [] ∧
    getA (sampleLocked.unlock "k1").2.locks "k1" = none := by
  refine ⟨(claim_C5 sampleQueued "k2" (by decide)).1 (by decide), ?_, ?_, ?_, ?_⟩
  · exact (((claim_C5 sampleQueued "k1" (by decide)).2 "A" (by decide))).1
  · exact ((((claim_C5 sampleQueued "k1" (by decide)).2 "A" (by decide))).2.2.2.1
      "B" [] (by decide)).1
  · exact ((((claim_C5 sampleQueued "k1" (by decide)).2 "A" (by decide))).2.2.2.1
      "B" [] (by decide)).2.1
  · exact (((claim_C5 sampleLocked "k1" (by decide)).2 "A" (by decide))).2.2.2.2
      (by left; decide)

/-- C6: when the caller holds the key's lock, set_or_inc_by_caller creates
the Record (with ModificationCount starting at 0) if it does not exist,
adds delta to the field if present and otherwise sets it to delta (absent
field treated as 0), increments ModificationCount by 1, and returns the
field's new value; locks, queues and other keys are untouched. -/
theorem claim_C6 (db : InMemoryDatabase) (k f : String) (d : Int) (c : String)
    (hl : getA db.locks k = some c) :
    (getA db.records k = none →
      ∃ db', db.set_or_inc_by_caller k f d c = some (some d, db') ∧
        getA db'.records k = some [(f, d)] ∧
        getA db'.modification_count k = some 1 ∧
        db'.locks = db.locks ∧ db'.lock_queues = db.lock_queues ∧
        (∀ k', k' ≠ k → getA db'.records k' = getA db.records k' ∧
          getA db'.modification_count k' = getA db.modification_count k')) ∧
    (∀ rec m, getA db.records k = some rec →
      getA db.modification_count k = some m →
      ∃ db', db.set_or_inc_by_caller k f d c =
          some (some ((getA rec f).getD 0 + d), db') ∧
        getA db'.records k = some (setA rec f ((getA rec f).getD 0 + d)) ∧
        getA db'.modification_count k = some (m + 1) ∧
        db'.locks = db.locks ∧ db'.lock_queues = db.lock_queues ∧
        (∀ k', k' ≠ k → getA db'.records k' = getA db.records k' ∧
          getA db'.modification_count k' = getA db.modification_count k')) := by
  constructor
  · intro hrec
    refine ⟨_, db.set_or_inc_new_record k f d c hl hrec, ?_, ?_, rfl, rfl, ?_⟩
    · exact getA_setA_self _ _ _
    · exact getA_setA_self _ _ _
    · intro k' hk'
      constructor
      · rw [getA_setA_ne _ _ _ _ hk', getA_setA_ne _ _ _ _ hk']
      · rw [getA_setA_ne _ _ _ _ hk', getA_setA_ne _ _ _ _ hk']
  · intro rec m hrec hcnt
    refine ⟨_, db.set_or_inc_existing_record k f d c rec m hl hrec hcnt,
      ?_, ?_, rfl, rfl, ?_⟩
    · exact getA_setA_self _ _ _
    · exact getA_setA_self _ _ _
    · intro k' hk'
      exact ⟨getA_setA_ne _ _ _ _ hk', getA_setA_ne _ _ _ _ hk'⟩

/-- C6 witness: caller A incrementing the existing field "f" of "k1" by 3
gets 8 back with the count bumped to 2; caller A writing to a key whose
record does not exist creates it with the field set to 5 and count 1. -/
theorem claim_C6_witness :
    ((sampleLocked.set_or_inc_by_caller "k1" "f" 3 "A").map Prod.fst =
      some (some 8)) ∧
    (∃ db', sampleLockedNoRec.set_or_inc_by_caller "k1" "f" 5 "A" =
        some (some 5, db') ∧
      getA db'.records "k1" = some [("f", 5)] ∧
      getA db'.modification_count "k1" = some 1) := by
  constructor
  · obtain ⟨db', heq, -⟩ :=
      (claim_C6 sampleLocked "k1" "f" 3 "A" (by decide)).2 [("f", 5)] 1
        (by decide) (by decide)
    rw [heq]
    norm_num [getA]
  · obtain ⟨db', heq, h1, h2, -⟩ :=
      (claim_C6 sampleLockedNoRec "k1" "f" 5 "A" (by decide)).1 (by decide)
    exact ⟨db', heq, h1, h2⟩

/-- C4: when the caller holds the key's lock, delete_by_caller removes an
existing field, increments ModificationCount by 1 and returns True; if the
removal empties the Record it additionally destroys the Record, the
ModificationCount entry, the LockOwner entry and the WaiterQueue entry in
the same step, regardless of queued waiters; a missing field (including a
missing record) returns False with no state change and no count change. -/
theorem claim_C4 (db : InMemoryDatabase) (k f : String) (c : String)
    (hl : getA db.locks k = some c) :
    (getA db.records k = none → db.delete_by_caller k f c = some (false, db)) ∧
    (∀ rec, getA db.records k = some rec → getA rec f = none →
      db.delete_by_caller k f c = some (false, db)) ∧
    (∀ rec fv m, getA db.records k = some rec → getA rec f = some fv →
      getA db.modification_count k = some m → delA rec f ≠ [] →
      ∃ db', db.delete_by_caller k f c = some (true, db') ∧
        getA db'.records k = some (delA rec f) ∧
        (keysNodup rec → getA (delA rec f) f = none) ∧
        getA db'.modification_count k = some (m + 1) ∧
        db'.locks = db.locks ∧ db'.lock_queues = db.lock_queues) ∧
    (∀ rec fv m, getA db.records k = some rec → getA rec f = some fv →
      getA db.modification_count k = some m → delA rec f = [] →
      keysNodup db.records → keysNodup db.modification_count →
      keysNodup db.locks → keysNodup db.lock_queues →
      ∃ db', db.delete_by_caller k f c = some (true, db') ∧
        getA db'.records k = none ∧
        getA db'.modification_count k = none ∧
        getA db'.locks k = none ∧
        getA db'.lock_queues k = none) := by
  refine ⟨db.delete_no_record k f c hl,
    fun rec hrec hf => db.delete_no_field k f c rec hl hrec hf, ?_, ?_⟩
  · intro rec fv m hrec hf hcnt hne
    refine ⟨_, db.delete_hit_nonempty k f c rec fv m hl hrec hf hcnt hne,
      getA_setA_self _ _ _, ?_, getA_setA_self _ _ _, rfl, rfl⟩
    intro hrecnd
    exact getA_delA_self rec f hrecnd
  · intro rec fv m hrec hf hcnt he hr hm hk hq
    refine ⟨_, db.delete_hit_empty k f c rec fv m hl hrec hf hcnt he,
      ?_, ?_, ?_, ?_⟩
    · exact getA_delA_self _ k (keysNodup_setA _ _ _ hr)
    · exact getA_delA_self _ k (keysNodup_setA _ _ _ hm)
    · exact getA_delA_self _ k hk
    · exact getA_delA_self _ k hq

/-- C4 witness: deleting the absent field "g" fails with no effect;
deleting "f" from a two-field record keeps the record and bumps the count
to 3; deleting the last field "f" while B is queued destroys the record,
count, lock and queue in one step. -/
theorem claim_C4_witness :
    (sampleLocked.delete_by_caller "k1" "g" "A" = some (false, sampleLocked)) ∧
    (∃ db', sampleTwoFields.delete_by_caller "k1" "f" "A" = some (true, db') ∧
      getA db'.records "k1" = some [("g", 7)] ∧
      getA db'.modification_count "k1" = some 3) ∧
    (∃ db', sampleQueued.delete_by_caller "k1" "f" "A" = some (true, db') ∧
      getA db'.records "k1" = none ∧
      getA db'.modification_count "k1" = none ∧
      getA db'.locks "k1" = none ∧
      getA db'.lock_queues "k1" = none) := by
  refine ⟨?_, ?_, ?_⟩
  · exact (claim_C4 sampleLocked "k1" "g" "A" (by decide)).2.1 [("f", 5)]
      (by decide) (by decide)
  · obtain ⟨db', heq, h1, -, h2, -⟩ :=
      (claim_C4 sampleTwoFields "k1" "f" "A" (by decide)).2.2.1 [("f", 5), ("g", 7)]
        5 2 (by decide) (by decide) (by decide) (by decide)
    exact ⟨db', heq, h1, h2⟩
  · exact (claim_C4 sampleQueued "k1" "f" "A" (by decide)).2.2.2 [("f", 5)] 5 1
      (by decide) (by decide) (by decide) (by decide) (by decide) (by decide)
      (by decide) (by decide)

/-- C8: lock on a key locked by a different owner returns "wait" and
appends the caller to the key's waiter queue unless already present
(creating the one-element queue when no entry exists), touching nothing
else; every operation preserves the invariant that queues are
duplicate-free; and two distinct new callers locking the same locked key
are queued in call order. -/
theorem claim_C8 :
    (∀ (db : InMemoryDatabase) (k c o : String) (q : List String),
      (getA db.records k).isSome → getA db.locks k = some o → o ≠ c →
      getA db.lock_queues k = some q →
      (db.lock k c).1 = some "wait" ∧
      getA (db.lock k c).2.lock_queues k =
        some (if c ∈ q then q else q ++ [c]) ∧
      (db.lock k c).2.records = db.records ∧
      (db.lock k c).2.locks = db.locks ∧
      (db.lock k c).2.modification_count = db.modification_count) ∧
    (∀ (db : InMemoryDatabase) (k c o : String),
      (getA db.records k).isSome → getA db.locks k = some o → o ≠ c →
      getA db.lock_queues k = none →
      (db.lock k c).1 = some "wait" ∧
      getA (db.lock k c).2.lock_queues k = some [c] ∧
      (db.lock k c).2.records = db.records ∧
      (db.lock k c).2.locks = db.locks ∧
      (db.lock k c).2.modification_count = db.modification_count) ∧
    (∀ (db : InMemoryDatabase) (op : Op) (db' : InMemoryDatabase),
      queuesWF db → applyOp db op = some db' → queuesWF db') ∧
    (∀ (db : InMemoryDatabase) (k o c1 c2 : String) (q : List String),
      (getA db.records k).isSome → getA db.locks k = some o →
      o ≠ c1 → o ≠ c2 → c1 ≠ c2 → getA db.lock_queues k = some q →
      c1 ∉ q → c2 ∉ q →
      getA ((db.lock k c1).2.lock k c2).2.lock_queues k =
        some (q ++ [c1, c2])) := by
  refine ⟨?_, ?_, queuesWF_applyOp, ?_⟩
  · intro db k c o q hrec hlk hne hq
    by_cases hc : c ∈ q
    · rw [db.lock_wait_queued k c o q hrec hlk hne hq hc]
      exact ⟨rfl, by rw [if_pos hc]; exact hq, rfl, rfl, rfl⟩
    · rw [db.lock_wait_append k c o q hrec hlk hne hq hc]
      exact ⟨rfl, by rw [if_neg hc]; exact getA_setA_self _ _ _, rfl, rfl, rfl⟩
  · intro db k c o hrec hlk hne hq
    rw [db.lock_wait_no_queue k c o hrec hlk hne hq]
    exact ⟨rfl, getA_setA_self _ _ _, rfl, rfl, rfl⟩
  · intro db k o c1 c2 q hrec hlk hne1 hne2 h12 hq hc1 hc2
    rw [db.lock_wait_append k c1 o q hrec hlk hne1 hq hc1]
    have hc2' : c2 ∉ q ++ [c1] := by
      intro hmem
      rcases List.mem_append.mp hmem with hmem | hmem
      · exact hc2 hmem
      · rw [List.mem_singleton] at hmem
        exact h12 hmem.symm
    show getA
      (InMemoryDatabase.lock
        { db with lock_queues := setA db.lock_queues k (q ++ [c1]) }
        k c2).2.lock_queues k = some (q ++ [c1, c2])
    rw [InMemoryDatabase.lock_wait_append
      { db with lock_queues := setA db.lock_queues k (q ++ [c1]) }
      k c2 o (q ++ [c1]) hrec hlk hne2 (getA_setA_self _ _ _) hc2']
    rw [getA_setA_self]
    congr 1
    simp

/-- C8 witness: on a store where A holds the lock on "k1" and B waits, a
new caller C is appended behind B; B locking again stays queued once; on a
store with no queue entry, B's lock call creates the queue ["B"]; the
resulting queues are duplicate-free; and C then D are queued in call
order. -/
theorem claim_C8_witness :
    ((sampleQueued.lock "k1" "C").1 = some "wait" ∧
      getA (sampleQueued.lock "k1" "C").2.lock_queues "k1" = some ["B", "C"]) ∧
    ((sampleQueued.lock "k1" "B").1 = some "wait" ∧
      getA (sampleQueued.lock "k1" "B").2.lock_queues "k1" = some ["B"]) ∧
    getA (sampleLocked.lock "k1" "B").2.lock_queues "k1" = some ["B"] ∧
    queuesWF (sampleQueued.lock "k1" "C").2 ∧
    getA ((sampleQueued.lock "k1" "C").2.lock "k1" "D").2.lock_queues "k1" =
      some ["B", "C", "D"] := by
  have h1 := claim_C8.1 sampleQueued "k1" "C" "A" ["B"] (by decide) (by decide)
    (by decide) (by decide)
  have h2 := claim_C8.1 sampleQueued "k1" "B" "A" ["B"] (by decide) (by decide)
    (by decide) (by decide)
  have h3 := claim_C8.2.1 sampleLocked "k1" "B" "A" (by decide) (by decide)
    (by decide) (by decide)
  have hwfQ : queuesWF sampleQueued := by
    refine ⟨by decide, ?_⟩
    intro k q hq
    by_cases hk : "k1" = k
    · simp only [sampleQueued, getA, if_pos hk, Option.some.injEq] at hq
      subst hq
      decide
    · simp only [sampleQueued, getA, if_neg hk] at hq
      exact absurd hq (by simp)
  have h4 := claim_C8.2.2.1 sampleQueued (Op.lock "k1" "C")
    (sampleQueued.lock "k1" "C").2 hwfQ rfl
  have h5 := claim_C8.2.2.2 sampleQueued "k1" "A" "C" "D" ["B"] (by decide)
    (by decide) (by decide) (by decide) (by decide) (by decide) (by decide)
    (by decide)
  refine ⟨⟨h1.1, ?_⟩, ⟨h2.1, ?_⟩, ?_, h4, ?_⟩
  · rw [h1.2.1]
    decide
  · rw [h2.2.1]
    decide
  · exact h3.2.1
  · rw [h5]
    rfl

/-- C10, counterexample: unlock on a store where B is the sole waiter on
"k1" hands the lock to B but retains the key's WaiterQueue entry as an
empty queue, so the store does retain an empty queue for a key, contrary
to the claimed invariant. -/
theorem claim_C10_counterexample :
    (sampleQueued.unlock "k1").1 = some "released" ∧
    getA (sampleQueued.unlock "k1").2.locks "k1" = some "B" ∧
    getA (sampleQueued.unlock "k1").2.lock_queues "k1" = some [] := by
  decide

/-- C10, amended: when unlock pops the last waiter of a key it retains the
key's WaiterQueue entry as an empty queue instead of removing it, so empty
queue entries can persist in the store; from the fresh initial store,
however, no WaiterQueue entry (empty or not) is ever created at all. -/
theorem claim_C10_amended :
    (∀ (db : InMemoryDatabase) (k o w : String),
      getA db.locks k = some o → getA db.lock_queues k = some [w] →
      getA (db.unlock k).2.lock_queues k = some []) ∧
    (∀ (ops : List Op) (db' : InMemoryDatabase),
      run InMemoryDatabase.init ops = some db' →
      ∀ k, getA db'.lock_queues k = none) := by
  constructor
  · intro db k o w hown hq
    rw [db.unlock_handoff k o w [] hown hq]
    exact getA_setA_self _ _ _
  · intro ops db' hrun k
    rw [run_init ops] at hrun
    obtain rfl := Option.some.inj hrun
    rfl

/-- C10 witness: the hand-off to sole waiter B concretely leaves the empty
queue entry for "k1" in place, and the initial store has no queue
entries. -/
theorem claim_C10_witness :
    getA (sampleQueued.unlock "k1").2.lock_queues "k1" = some [] ∧
    (∀ k, getA InMemoryDatabase.init.lock_queues k = none) :=
  ⟨claim_C10_amended.1 sampleQueued "k1" "A" "B" (by decide) (by decide),
   fun k => claim_C10_amended.2 [] InMemoryDatabase.init rfl k⟩

end InMemDB
